import Mathlib

/-!
Verification of the tmuxtop monitor (`tmuxtop.py`).

The Python program is shallowly embedded: external collaborators (the tmux
CLI, the psutil process table) become explicit parameters, Python floats
become rationals, the mutable `dict` caches become functional maps, and
`collections.deque(maxlen=20)` becomes a list with explicit eviction.
-/

namespace Tmuxtop

/-- Operating-system process id. -/
abbrev Pid := Nat

/-- One successful per-process metrics sample, as produced by the psutil
collaborator inside `ProcessInfo.update`'s `oneshot` block. Percentages are
modelled as rationals. -/
structure SampleData where
  pid : Pid
  ppid : Pid
  username : String
  cpu : ℚ
  mem : ℚ
  createTime : String
  cmdline : List String
deriving DecidableEq, Repr

/-- `collections.deque(maxlen=n).append`: append on the right, evicting from
the left once the capacity is exceeded. -/
def dequeAppend (maxlen : Nat) (h : List α) (x : α) : List α :=
  let l := h ++ [x]
  l.drop (l.length - maxlen)

/-- The mutable attributes of the Python `ProcessInfo` object. Attributes that
are only assigned inside a successful `update` are `Option`s: before the first
successful sample they are simply absent on the Python object. -/
structure ProcessInfo where
  pid : Option Pid := none
  ppid : Option Pid := none
  username : Option String := none
  cpu_history : List ℚ := []
  mem_history : List ℚ := []
  create_time : Option String := none
  cmdline : Option (List String) := none
deriving DecidableEq, Repr

/-- `ProcessInfo.update`: on a successful sample (`some d`) every attribute is
re-assigned and one value is appended to each bounded history; when psutil
raises `NoSuchProcess`/`AccessDenied` (`none`) the handler `pass`es and the
object is left as it was. -/
def ProcessInfo.update (info : ProcessInfo) (s : Option SampleData) : ProcessInfo :=
  match s with
  | none => info
  | some d =>
    { pid := some d.pid
      ppid := some d.ppid
      username := some (d.username.take 8)
      cpu_history := dequeAppend 20 info.cpu_history d.cpu
      mem_history := dequeAppend 20 info.mem_history d.mem
      create_time := some d.createTime
      cmdline := some d.cmdline }

/-- `ProcessInfo.__init__`: fresh empty 20-capacity histories, then one
`update` call with whatever the first sample yields. -/
def ProcessInfo.init (s : Option SampleData) : ProcessInfo :=
  ProcessInfo.update {} s

/-- Python `max` over a nonempty list, given as head and tail. -/
def maxOf (x : ℚ) (xs : List ℚ) : ℚ := xs.foldl max x

/-- Python `int(...)` on a rational: truncation toward zero. -/
def pyInt (q : ℚ) : Int := if 0 ≤ q then q.floor else -((-q).floor)

/-- The sparkline glyph levels, lowest first (`graph_chars` in `_get_graph`). -/
def graph_chars : List Char := ['▁', '▂', '▃', '▄', '▅', '▆', '▇']

/-- Python list indexing: a negative index counts from the end. (The program
only ever indexes in range.) -/
def pyListGet (l : List Char) (i : Int) : Char :=
  if 0 ≤ i then l.getD i.toNat ' ' else l.getD (l.length - (-i).toNat) ' '

/-- Python `str.ljust(n)`: pad on the right with blanks up to width `n`;
longer strings are returned unchanged. -/
def ljustChars (l : List Char) (n : Nat) : List Char :=
  l ++ List.replicate (n - l.length) ' '

/-- `ProcessInfo._get_graph`: empty history renders as ten blanks; otherwise
the maximum is floored at 1/10 to avoid division by zero and each sample maps
to the glyph level proportional to `sample/max`, truncated, capped at the top
level; the glyph run is left-justified to width 10. -/
def ProcessInfo.getGraph (data : List ℚ) : List Char :=
  match data with
  | [] => List.replicate 10 ' '
  | x :: xs =>
    let maxValue := max (maxOf x xs) (1 / 10)
    let graph := (x :: xs).map (fun v =>
      let height := min (pyInt (v / maxValue * ((graph_chars.length : Int) - 1)))
        ((graph_chars.length : Int) - 1)
      pyListGet graph_chars height)
    ljustChars graph 10

/-- `draw_screen` line 213: `3 if cpu_percent < 50 else (4 if cpu_percent < 80
else 5)` — curses color pair 3 is green (low), 4 yellow (medium), 5 red
(high). -/
def cpu_color (v : ℚ) : Nat := if v < 50 then 3 else if v < 80 then 4 else 5

/-- `draw_screen` line 214: the same banding, applied to the memory cell. -/
def mem_color (v : ℚ) : Nat := if v < 50 then 3 else if v < 80 then 4 else 5

/-- `run` on `KEY_UP`: decrement `scroll_position` only when it is positive. -/
def scrollUpKey (p : Int) : Int := if 0 < p then p - 1 else p

/-- `run` on `KEY_DOWN`: increment `scroll_position` unconditionally. -/
def scrollDownKey (p : Int) : Int := p + 1

/-- The OS process table seen by psutil: a list of (pid, parent-pid) rows. -/
structure ProcWorld where
  procs : List (Pid × Pid)
deriving DecidableEq, Repr

/-- The set of live pids. -/
def ProcWorld.pids (w : ProcWorld) : List Pid := w.procs.map (·.1)

/-- Parent pid of a live process. -/
def ProcWorld.ppidOf (w : ProcWorld) (q : Pid) : Option Pid :=
  (w.procs.find? (fun e => e.1 == q)).map (·.2)

/-- Whether `p` occurs in the parent chain above `q` within `fuel` steps. -/
def ProcWorld.ancestorOf (w : ProcWorld) : Nat → Pid → Pid → Bool
  | 0, _, _ => false
  | fuel + 1, q, p =>
    match w.ppidOf q with
    | none => false
    | some pp => pp == p || w.ancestorOf fuel pp p

/-- psutil `Process.children(recursive=True)`: every process in the table
whose parent chain reaches `p` — the strict descendants of `p` (for an acyclic
table `p` itself is never among them). -/
def ProcWorld.childrenRecursive (w : ProcWorld) (p : Pid) : List Pid :=
  w.pids.filter (fun q => w.ancestorOf w.procs.length q p)

/-- `get_process_tree`: the recursive children of `pid`, or `[]` when psutil
raises `NoSuchProcess`/`AccessDenied` (modelled as the pid being absent from
the table). -/
def get_process_tree (w : ProcWorld) (pid : Pid) : List Pid :=
  if w.pids.contains pid then w.childrenRecursive pid else []

/-- One pane as stored by `get_tmux_info`: (pane index, pane pid). -/
abbrev PaneEntry := String × Pid

/-- One window: the dict key `"index:name"` and its pane list. -/
abbrev WindowEntry := String × List PaneEntry

/-- One session: its name and its windows. -/
abbrev SessionEntry := String × List WindowEntry

/-- The topology snapshot built by `get_tmux_info`. -/
abbrev Topology := List SessionEntry

/-- The pids visited by `update_data`'s nested loops, in visit order: for each
session, window and pane, the pane's `get_process_tree` expansion. -/
def tickPids (w : ProcWorld) (topo : Topology) : List Pid :=
  topo.flatMap fun s => s.2.flatMap fun win => win.2.flatMap fun pane =>
    get_process_tree w pane.2

/-- The `process_cache` dict, keyed by pid. -/
abbrev Cache := Pid → Option ProcessInfo

/-- Store one record under one pid. -/
def setRec (m : Cache) (p : Pid) (v : ProcessInfo) : Cache :=
  fun q => if q = p then some v else m q

/-- One iteration of `update_data`'s inner loop over `(old cache, new cache)`:
a pid already in the old cache has its record updated in place (the mutation is
visible through both dicts, which alias the object) and carried into the new
cache; an unknown pid gets a freshly constructed record in the new cache
only. -/
def tickStep (sample : Pid → Option SampleData) (acc : Cache × Cache) (pid : Pid) :
    Cache × Cache :=
  match acc.1 pid with
  | some info =>
    let info2 := info.update (sample pid)
    (setRec acc.1 pid info2, setRec acc.2 pid info2)
  | none => (acc.1, setRec acc.2 pid (ProcessInfo.init (sample pid)))

/-- The mutable state of the `TmuxTop` object (the curses handle aside). -/
structure TmuxState where
  scroll_position : Int
  sessions : Topology
  process_cache : Cache
  last_update : ℚ
  update_interval : ℚ

/-- `TmuxTop.__init__`. -/
def initState : TmuxState :=
  { scroll_position := 0
    sessions := []
    process_cache := fun _ => none
    last_update := 0
    update_interval := 2 }

/-- `TmuxTop.update_data`: when at least `update_interval` seconds have passed
since `last_update`, rebuild the topology snapshot, walk every pane's process
tree rebuilding `process_cache` from scratch, and stamp `last_update`;
otherwise do nothing at all. The external tmux/psutil calls appear as the
`topo`, `w` and `sample` parameters. -/
def update_data (st : TmuxState) (now : ℚ) (topo : Topology) (w : ProcWorld)
    (sample : Pid → Option SampleData) : TmuxState :=
  if now - st.last_update ≥ st.update_interval then
    { st with
      sessions := topo
      process_cache :=
        ((tickPids w topo).foldl (tickStep sample) (st.process_cache, fun _ => none)).2
      last_update := now }
  else st

/-- The external inputs of one call to `update_data`: the wall clock and the
tmux/psutil responses for that call. -/
structure TickEnv where
  now : ℚ
  topo : Topology
  world : ProcWorld
  sample : Pid → Option SampleData

/-- A sequence of `update_data` calls with their external inputs. -/
def runTicks (st : TmuxState) (envs : List TickEnv) : TmuxState :=
  envs.foldl (fun s e => update_data s e.now e.topo e.world e.sample) st

/-- Each call comes at least 2 seconds after the previous one (so each fires
when the interval is the default 2). -/
def timesOk (last : ℚ) : List TickEnv → Bool
  | [] => true
  | e :: es => decide (e.now - last ≥ 2) && timesOk e.now es

/-- Keep the newest `n` elements of a list. -/
def lastN (n : Nat) (l : List α) : List α := l.drop (l.length - n)

/-- `pid` appears exactly once in each tick's visited-pid list. -/
def presentOnce (pid : Pid) (envs : List TickEnv) : Bool :=
  envs.all fun e => (tickPids e.world e.topo).count pid == 1

/-- Sampling `pid` succeeds at every tick. -/
def samplesOk (pid : Pid) (envs : List TickEnv) : Bool :=
  envs.all fun e => (e.sample pid).isSome

/-- The CPU sample values delivered for `pid`, oldest tick first. -/
def cpuSamples (pid : Pid) (envs : List TickEnv) : List ℚ :=
  envs.filterMap fun e => (e.sample pid).map (·.cpu)

/-- The memory sample values delivered for `pid`, oldest tick first. -/
def memSamples (pid : Pid) (envs : List TickEnv) : List ℚ :=
  envs.filterMap fun e => (e.sample pid).map (·.mem)

/-- A single-quote character (used to build shell text explicitly). -/
def squote : Char := '\x27'

/-- A double-quote character. -/
def dquote : Char := '"'

/-- The characters Python `shlex.quote` considers safe (`_find_unsafe`,
ASCII): alphanumerics, `_@%+=:,.`, the slash and the hyphen. -/
def shlexSafeChar (c : Char) : Bool :=
  c.isAlphanum || ['_', '@', '%', '+', '=', ':', ',', '.', '/', '-'].contains c

/-- Python `shlex.quote` over an explicit character list: safe strings pass
through, the empty string and any string with an unsafe character are wrapped
in single quotes, with every embedded single quote spliced out as
quote, double-quote, quote, double-quote, quote. -/
def shlexQuote (s : List Char) : List Char :=
  if s = [] then [squote, squote]
  else if s.all shlexSafeChar then s
  else
    [squote] ++
      (s.flatMap fun c =>
        if c = squote then [squote, dquote, squote, dquote, squote] else [c]) ++
    [squote]

/-- `backup_sessions` line 258: the `send-keys` line that replays a pane's
working directory. Note the f-string wraps `cd {shlex.quote(pane_pwd)}`
inside a pair of LITERAL single quotes of its own. -/
def cdSendKeysLine (session_name window_index pane_index pane_pwd : List Char) :
    List Char :=
  "tmux send-keys -t ".data ++ shlexQuote session_name ++ ":".data ++ window_index ++
    ".".data ++ pane_index ++ " ".data ++ [squote] ++ "cd ".data ++
    shlexQuote pane_pwd ++ [squote] ++ " C-m\n".data

/-- `backup_sessions` line 263: the `send-keys` line that replays a pane's
command; each argument is quoted individually and joined with spaces, with no
extra quoting around the joined result. -/
def cmdSendKeysLine (session_name window_index pane_index : List Char)
    (cmd : List (List Char)) : List Char :=
  "tmux send-keys -t ".data ++ shlexQuote session_name ++ ":".data ++ window_index ++
    ".".data ++ pane_index ++ " ".data ++
    List.intercalate " ".data (cmd.map shlexQuote) ++ " C-m\n".data

/-- `backup_sessions` line 242: the `new-session` line. -/
def newSessionLine (session_name : List Char) : List Char :=
  "tmux new-session -d -s ".data ++ shlexQuote session_name ++ "\n".data

/-- Quoting state of a POSIX shell scanner. -/
inductive QuoteMode where
  | outside
  | single
  | double
deriving DecidableEq, Repr

/-- POSIX shell quote scanning: tag every data character of a word with the
quoting mode it is read under (quote characters themselves are delimiters and
are dropped). -/
def shellScan : QuoteMode → List Char → List (QuoteMode × Char)
  | _, [] => []
  | .outside, c :: cs =>
    if c = squote then shellScan .single cs
    else if c = dquote then shellScan .double cs
    else (.outside, c) :: shellScan .outside cs
  | .single, c :: cs =>
    if c = squote then shellScan .outside cs else (.single, c) :: shellScan .single cs
  | .double, c :: cs =>
    if c = dquote then shellScan .outside cs else (.double, c) :: shellScan .double cs

/-- A `$` read outside single quotes (command/variable substitution stays
active both unquoted and inside double quotes). -/
def hasActiveDollar (s : List Char) : Bool :=
  (shellScan .outside s).any fun mc => mc.2 == '$' && !(mc.1 == QuoteMode.single)

/-- A small concrete process table: pid 1 (a pane shell, parent 0) with one
child, pid 2. -/
def w12 : ProcWorld := ⟨[(1, 0), (2, 1)]⟩

/-- A one-session, one-window, one-pane topology whose pane pid is 1. -/
def topo1 : Topology := [("s", [("0:w", [("0", 1)])])]

/-- A psutil responder for which every sample attempt fails. -/
def sampleNone : Pid → Option SampleData := fun _ => none

/-- A psutil responder returning a fixed sample for every pid. -/
def sampleA : Pid → Option SampleData := fun p =>
  some { pid := p, ppid := 1, username := "alice", cpu := 3, mem := 4,
         createTime := "12:00:00", cmdline := ["vim"] }

/-- A second responder with different metric values. -/
def sampleB : Pid → Option SampleData := fun p =>
  some { pid := p, ppid := 1, username := "alice", cpu := 5, mem := 6,
         createTime := "12:00:00", cmdline := ["vim"] }

/-- A responder that fails exactly on pid 2. -/
def sampleSkip2 : Pid → Option SampleData := fun p =>
  if p = 2 then none else sampleA p

/-- A concrete sample value. -/
def dataA : SampleData :=
  { pid := 2, ppid := 1, username := "alice", cpu := 3, mem := 4,
    createTime := "12:00:00", cmdline := ["vim"] }

/-- A first concrete tick at time 10. -/
def tickE1 : TickEnv := ⟨10, topo1, w12, sampleA⟩

/-- A second concrete tick at time 20, with different metric values. -/
def tickE2 : TickEnv := ⟨20, topo1, w12, sampleB⟩

/-! ### Basic lemmas about the cache fold -/

lemma setRec_self (m : Cache) (p : Pid) (v : ProcessInfo) : setRec m p v p = some v := by
  simp [setRec]

lemma setRec_other (m : Cache) (p : Pid) (v : ProcessInfo) {q : Pid} (h : q ≠ p) :
    setRec m p v q = m q := by
  simp [setRec, h]

lemma tickStep_fst_self (sample : Pid → Option SampleData) (acc : Cache × Cache) (a : Pid) :
    (tickStep sample acc a).1 a =
      match acc.1 a with
      | some info => some (info.update (sample a))
      | none => acc.1 a := by
  cases hx : acc.1 a <;> simp [tickStep, hx, setRec]

lemma tickStep_snd_self (sample : Pid → Option SampleData) (acc : Cache × Cache) (a : Pid) :
    (tickStep sample acc a).2 a =
      some (match acc.1 a with
        | some info => info.update (sample a)
        | none => ProcessInfo.init (sample a)) := by
  cases hx : acc.1 a <;> simp [tickStep, hx, setRec]

lemma tickStep_fst_other (sample : Pid → Option SampleData) (acc : Cache × Cache) (a : Pid)
    {q : Pid} (h : q ≠ a) : (tickStep sample acc a).1 q = acc.1 q := by
  cases hx : acc.1 a <;> simp [tickStep, hx, setRec, h]

lemma tickStep_snd_other (sample : Pid → Option SampleData) (acc : Cache × Cache) (a : Pid)
    {q : Pid} (h : q ≠ a) : (tickStep sample acc a).2 q = acc.2 q := by
  cases hx : acc.1 a <;> simp [tickStep, hx, setRec, h]

lemma tickStep_snd_isSome (sample : Pid → Option SampleData) (acc : Cache × Cache) (a q : Pid) :
    ((tickStep sample acc a).2 q).isSome = true ↔ q = a ∨ (acc.2 q).isSome = true := by
  by_cases hq : q = a
  · subst hq
    rw [tickStep_snd_self]
    simp
  · rw [tickStep_snd_other sample acc a hq]
    simp [hq]

lemma fold_snd_isSome (sample : Pid → Option SampleData) (l : List Pid) (q : Pid) :
    ∀ acc : Cache × Cache,
      ((l.foldl (tickStep sample) acc).2 q).isSome = true ↔
        (acc.2 q).isSome = true ∨ q ∈ l := by
  induction l with
  | nil => intro acc; simp
  | cons a t ih =>
    intro acc
    rw [List.foldl_cons, ih, tickStep_snd_isSome]
    simp only [List.mem_cons]
    tauto

lemma fold_not_mem (sample : Pid → Option SampleData) (l : List Pid) {q : Pid} (h : q ∉ l) :
    ∀ acc : Cache × Cache,
      (l.foldl (tickStep sample) acc).1 q = acc.1 q ∧
      (l.foldl (tickStep sample) acc).2 q = acc.2 q := by
  induction l with
  | nil => intro acc; exact ⟨rfl, rfl⟩
  | cons a t ih =>
    intro acc
    have hqa : q ≠ a := fun e => h (e ▸ List.mem_cons_self a t)
    have hqt : q ∉ t := fun m => h (List.mem_cons_of_mem _ m)
    rw [List.foldl_cons]
    rcases ih hqt (tickStep sample acc a) with ⟨h1, h2⟩
    rw [h1, h2, tickStep_fst_other sample acc a hqa, tickStep_snd_other sample acc a hqa]
    exact ⟨rfl, rfl⟩

lemma fold_count_one_existing (sample : Pid → Option SampleData) (l : List Pid) {q : Pid}
    (info : ProcessInfo) :
    l.count q = 1 → ∀ acc : Cache × Cache, acc.1 q = some info →
      (l.foldl (tickStep sample) acc).2 q = some (info.update (sample q)) := by
  induction l with
  | nil => simp
  | cons a t ih =>
    intro hc acc h1
    rw [List.foldl_cons]
    by_cases hqa : q = a
    · subst hqa
      rw [List.count_cons_self] at hc
      have ht : q ∉ t := List.count_eq_zero.mp (by omega)
      rw [(fold_not_mem sample t ht (tickStep sample acc q)).2, tickStep_snd_self, h1]
    · rw [List.count_cons_of_ne hqa] at hc
      exact ih hc _ (by rw [tickStep_fst_other sample acc a hqa]; exact h1)

lemma fold_count_one_new (sample : Pid → Option SampleData) (l : List Pid) {q : Pid} :
    l.count q = 1 → ∀ acc : Cache × Cache, acc.1 q = none →
      (l.foldl (tickStep sample) acc).2 q = some (ProcessInfo.init (sample q)) := by
  induction l with
  | nil => simp
  | cons a t ih =>
    intro hc acc h1
    rw [List.foldl_cons]
    by_cases hqa : q = a
    · subst hqa
      rw [List.count_cons_self] at hc
      have ht : q ∉ t := List.count_eq_zero.mp (by omega)
      rw [(fold_not_mem sample t ht (tickStep sample acc q)).2, tickStep_snd_self, h1]
    · rw [List.count_cons_of_ne hqa] at hc
      exact ih hc _ (by rw [tickStep_fst_other sample acc a hqa]; exact h1)

lemma tickStep_preserves (P : ProcessInfo → Prop)
    (hupd : ∀ (i : ProcessInfo) (s : Option SampleData), P i → P (i.update s))
    (hinit : ∀ s : Option SampleData, P (ProcessInfo.init s))
    (sample : Pid → Option SampleData) (acc : Cache × Cache) (a : Pid)
    (h1 : ∀ p i, acc.1 p = some i → P i) (h2 : ∀ p i, acc.2 p = some i → P i) :
    (∀ p i, (tickStep sample acc a).1 p = some i → P i) ∧
    (∀ p i, (tickStep sample acc a).2 p = some i → P i) := by
  constructor <;> intro p i hp
  · by_cases hpa : p = a
    · subst hpa
      rw [tickStep_fst_self] at hp
      cases hx : acc.1 p with
      | none => rw [hx] at hp; simp at hp
      | some info =>
        rw [hx] at hp
        cases hp
        exact hupd _ _ (h1 p info hx)
    · rw [tickStep_fst_other sample acc a hpa] at hp
      exact h1 p i hp
  · by_cases hpa : p = a
    · subst hpa
      rw [tickStep_snd_self] at hp
      cases hx : acc.1 p with
      | none =>
        rw [hx] at hp
        cases hp
        exact hinit _
      | some info =>
        rw [hx] at hp
        cases hp
        exact hupd _ _ (h1 p info hx)
    · rw [tickStep_snd_other sample acc a hpa] at hp
      exact h2 p i hp

lemma fold_preserves (P : ProcessInfo → Prop)
    (hupd : ∀ (i : ProcessInfo) (s : Option SampleData), P i → P (i.update s))
    (hinit : ∀ s : Option SampleData, P (ProcessInfo.init s))
    (sample : Pid → Option SampleData) (l : List Pid) :
    ∀ acc : Cache × Cache,
      (∀ p i, acc.1 p = some i → P i) → (∀ p i, acc.2 p = some i → P i) →
      ∀ p i, (l.foldl (tickStep sample) acc).2 p = some i → P i := by
  induction l with
  | nil => intro acc _ h2; exact h2
  | cons a t ih =>
    intro acc h1 h2
    rw [List.foldl_cons]
    rcases tickStep_preserves P hupd hinit sample acc a h1 h2 with ⟨g1, g2⟩
    exact ih _ g1 g2

lemma update_data_fire (st : TmuxState) (now : ℚ) (topo : Topology) (w : ProcWorld)
    (sample : Pid → Option SampleData) (h : now - st.last_update ≥ st.update_interval) :
    update_data st now topo w sample =
      { st with
        sessions := topo
        process_cache :=
          ((tickPids w topo).foldl (tickStep sample) (st.process_cache, fun _ => none)).2
        last_update := now } := by
  unfold update_data
  rw [if_pos h]

lemma update_data_skip (st : TmuxState) (now : ℚ) (topo : Topology) (w : ProcWorld)
    (sample : Pid → Option SampleData) (h : ¬ now - st.last_update ≥ st.update_interval) :
    update_data st now topo w sample = st := by
  unfold update_data
  rw [if_neg h]

/-! ### Lemmas about bounded histories -/

lemma dequeAppend_eq_lastN (h : List α) (x : α) :
    dequeAppend 20 h x = lastN 20 (h ++ [x]) := rfl

lemma length_lastN (n : Nat) (l : List α) : (lastN n l).length = min l.length n := by
  simp only [lastN, List.length_drop]
  omega

lemma lastN_of_le {n : Nat} {l : List α} (h : l.length ≤ n) : lastN n l = l := by
  unfold lastN
  rw [Nat.sub_eq_zero_of_le h, List.drop_zero]

lemma lastN_append_lastN (n : Nat) (l m : List α) :
    lastN n (lastN n l ++ m) = lastN n (l ++ m) := by
  rcases Nat.le_total l.length n with h | h
  · rw [lastN_of_le h]
  · unfold lastN
    rw [← List.drop_append_of_le_length (Nat.sub_le l.length n), List.drop_drop]
    congr 1
    simp only [List.length_drop, List.length_append]
    omega

lemma length_dequeAppend (h : List α) (x : α) :
    (dequeAppend 20 h x).length = min (h.length + 1) 20 := by
  simp only [dequeAppend, List.length_drop, List.length_append, List.length_cons,
    List.length_nil]
  omega

lemma cpuSamples_cons (pid : Pid) (e : TickEnv) (envs : List TickEnv) (d : SampleData)
    (h : e.sample pid = some d) :
    cpuSamples pid (e :: envs) = d.cpu :: cpuSamples pid envs := by
  simp [cpuSamples, h]

lemma memSamples_cons (pid : Pid) (e : TickEnv) (envs : List TickEnv) (d : SampleData)
    (h : e.sample pid = some d) :
    memSamples pid (e :: envs) = d.mem :: memSamples pid envs := by
  simp [memSamples, h]

lemma length_cpuSamples (pid : Pid) (envs : List TickEnv) (h : samplesOk pid envs = true) :
    (cpuSamples pid envs).length = envs.length := by
  induction envs with
  | nil => rfl
  | cons e es ih =>
    simp only [samplesOk, List.all_cons, Bool.and_eq_true] at h
    rcases Option.isSome_iff_exists.mp h.1 with ⟨d, hd⟩
    rw [cpuSamples_cons pid e es d hd, List.length_cons, ih (by simpa [samplesOk] using h.2),
      List.length_cons]

lemma length_memSamples (pid : Pid) (envs : List TickEnv) (h : samplesOk pid envs = true) :
    (memSamples pid envs).length = envs.length := by
  induction envs with
  | nil => rfl
  | cons e es ih =>
    simp only [samplesOk, List.all_cons, Bool.and_eq_true] at h
    rcases Option.isSome_iff_exists.mp h.1 with ⟨d, hd⟩
    rw [memSamples_cons pid e es d hd, List.length_cons, ih (by simpa [samplesOk] using h.2),
      List.length_cons]

/-! ### Cache-wide preservation through refresh ticks -/

lemma update_data_preserves (P : ProcessInfo → Prop)
    (hupd : ∀ (i : ProcessInfo) (s : Option SampleData), P i → P (i.update s))
    (hinit : ∀ s : Option SampleData, P (ProcessInfo.init s))
    (st : TmuxState) (now : ℚ) (topo : Topology) (w : ProcWorld)
    (sample : Pid → Option SampleData)
    (h : ∀ q i, st.process_cache q = some i → P i) :
    ∀ q i, (update_data st now topo w sample).process_cache q = some i → P i := by
  unfold update_data
  split
  · exact fold_preserves P hupd hinit sample _ _ h (fun _ _ h0 => Option.noConfusion h0)
  · exact h

lemma runTicks_preserves (P : ProcessInfo → Prop)
    (hupd : ∀ (i : ProcessInfo) (s : Option SampleData), P i → P (i.update s))
    (hinit : ∀ s : Option SampleData, P (ProcessInfo.init s))
    (envs : List TickEnv) :
    ∀ st : TmuxState, (∀ q i, st.process_cache q = some i → P i) →
      ∀ q i, (runTicks st envs).process_cache q = some i → P i := by
  induction envs with
  | nil => intro st h; exact h
  | cons e es ih =>
    intro st h
    exact ih _ (update_data_preserves P hupd hinit st e.now e.topo e.world e.sample h)

lemma cap_update (i : ProcessInfo) (s : Option SampleData)
    (h : i.cpu_history.length ≤ 20 ∧ i.mem_history.length ≤ 20) :
    (i.update s).cpu_history.length ≤ 20 ∧ (i.update s).mem_history.length ≤ 20 := by
  cases s with
  | none => exact h
  | some d =>
    constructor <;> simp only [ProcessInfo.update, length_dequeAppend] <;> omega

lemma cap_init (s : Option SampleData) :
    (ProcessInfo.init s).cpu_history.length ≤ 20 ∧
    (ProcessInfo.init s).mem_history.length ≤ 20 := by
  cases s with
  | none => exact ⟨by decide, by decide⟩
  | some d =>
    have h1 : (ProcessInfo.init (some d)).cpu_history = [d.cpu] := rfl
    have h2 : (ProcessInfo.init (some d)).mem_history = [d.mem] := rfl
    rw [h1, h2]
    exact ⟨by simp, by simp⟩

lemma runTicks_existing (pid : Pid) (envs : List TickEnv) :
    ∀ st : TmuxState, st.update_interval = 2 → timesOk st.last_update envs = true →
      presentOnce pid envs = true → samplesOk pid envs = true →
      ∀ info : ProcessInfo, st.process_cache pid = some info →
      info.cpu_history.length ≤ 20 → info.mem_history.length ≤ 20 →
      ∃ info' : ProcessInfo,
        (runTicks st envs).process_cache pid = some info' ∧
        info'.cpu_history = lastN 20 (info.cpu_history ++ cpuSamples pid envs) ∧
        info'.mem_history = lastN 20 (info.mem_history ++ memSamples pid envs) := by
  induction envs with
  | nil =>
    intro st _ _ _ _ info hc hl1 hl2
    refine ⟨info, hc, ?_, ?_⟩
    · rw [show cpuSamples pid [] = [] from rfl, List.append_nil, lastN_of_le hl1]
    · rw [show memSamples pid [] = [] from rfl, List.append_nil, lastN_of_le hl2]
  | cons e es ih =>
    intro st hint htimes honce hsamp info hc hl1 hl2
    simp only [timesOk, Bool.and_eq_true, decide_eq_true_eq] at htimes
    simp only [presentOnce, List.all_cons, Bool.and_eq_true, beq_iff_eq] at honce
    simp only [samplesOk, List.all_cons, Bool.and_eq_true] at hsamp
    rcases Option.isSome_iff_exists.mp hsamp.1 with ⟨d, hd⟩
    have hfire : e.now - st.last_update ≥ st.update_interval := by rw [hint]; exact htimes.1
    have hrun : runTicks st (e :: es) =
        runTicks (update_data st e.now e.topo e.world e.sample) es := rfl
    set st1 := update_data st e.now e.topo e.world e.sample with hst1
    have hc1 : st1.process_cache pid = some (info.update (some d)) := by
      rw [hst1, update_data_fire st e.now e.topo e.world e.sample hfire]
      have hfold := fold_count_one_existing e.sample (tickPids e.world e.topo) info honce.1
        (st.process_cache, fun _ => none) hc
      rw [hd] at hfold
      exact hfold
    have hint1 : st1.update_interval = 2 := by
      rw [hst1, update_data_fire st e.now e.topo e.world e.sample hfire]
      exact hint
    have hlast1 : st1.last_update = e.now := by
      rw [hst1, update_data_fire st e.now e.topo e.world e.sample hfire]
    have hcpu1 : (info.update (some d)).cpu_history = lastN 20 (info.cpu_history ++ [d.cpu]) :=
      rfl
    have hmem1 : (info.update (some d)).mem_history = lastN 20 (info.mem_history ++ [d.mem]) :=
      rfl
    have hl1' : (info.update (some d)).cpu_history.length ≤ 20 := by
      rw [hcpu1, length_lastN]
      omega
    have hl2' : (info.update (some d)).mem_history.length ≤ 20 := by
      rw [hmem1, length_lastN]
      omega
    rcases ih st1 hint1 (by rw [hlast1]; exact htimes.2) honce.2 hsamp.2
        (info.update (some d)) hc1 hl1' hl2' with ⟨info', hfin, hfc, hfm⟩
    refine ⟨info', by rw [hrun]; exact hfin, ?_, ?_⟩
    · rw [hfc, hcpu1, lastN_append_lastN, List.append_assoc,
        cpuSamples_cons pid e es d hd]
      rfl
    · rw [hfm, hmem1, lastN_append_lastN, List.append_assoc,
        memSamples_cons pid e es d hd]
      rfl

/-! ### Claim theorems -/

/-- C1: after a refresh tick fires, the resulting process-record table has a
record for a process id if and only if that id appeared in some pane's
process-tree expansion computed during that tick; every id outside the tick's
computed set is absent from the new table (no leaked entries). -/
theorem claim1_table_matches_tick_set (st : TmuxState) (now : ℚ) (topo : Topology)
    (w : ProcWorld) (sample : Pid → Option SampleData)
    (hfire : now - st.last_update ≥ st.update_interval) (pid : Pid) :
    ((update_data st now topo w sample).process_cache pid).isSome = true ↔
      pid ∈ tickPids w topo := by
  rw [update_data_fire st now topo w sample hfire,
    fold_snd_isSome sample (tickPids w topo) pid (st.process_cache, fun _ => none)]
  simp

/-- Witness for C1 at a concrete firing tick. -/
theorem claim1_witness :
    ((update_data initState 10 topo1 w12 sampleA).process_cache 2).isSome = true ↔
      2 ∈ tickPids w12 topo1 :=
  claim1_table_matches_tick_set initState 10 topo1 w12 sampleA (by norm_num [initState]) 2

/-- C3 (as amended only by the grouping of its hypotheses): across any
sequence of firing refresh ticks no record's history ever exceeds the
20-sample capacity, and a process id continuously present (appearing exactly
once per tick, sampled successfully each time) starting fresh accumulates
min(N, 20) samples, ordered oldest-to-newest, keeping the earlier values up to
eviction of the oldest. -/
theorem claim3_history_bounds (st : TmuxState) (pid : Pid) (e : TickEnv)
    (envs : List TickEnv)
    (hint : st.update_interval = 2)
    (htimes : timesOk st.last_update (e :: envs) = true)
    (honce : presentOnce pid (e :: envs) = true)
    (hsamp : samplesOk pid (e :: envs) = true)
    (hfresh : st.process_cache pid = none)
    (hcap : ∀ q i, st.process_cache q = some i →
      i.cpu_history.length ≤ 20 ∧ i.mem_history.length ≤ 20) :
    (∃ info, (runTicks st (e :: envs)).process_cache pid = some info ∧
      info.cpu_history = lastN 20 (cpuSamples pid (e :: envs)) ∧
      info.cpu_history.length = min (e :: envs).length 20 ∧
      info.mem_history = lastN 20 (memSamples pid (e :: envs)) ∧
      info.mem_history.length = min (e :: envs).length 20) ∧
    (∀ q i, (runTicks st (e :: envs)).process_cache q = some i →
      i.cpu_history.length ≤ 20 ∧ i.mem_history.length ≤ 20) := by
  constructor
  · have hsamp0 := hsamp
    simp only [timesOk, Bool.and_eq_true, decide_eq_true_eq] at htimes
    simp only [presentOnce, List.all_cons, Bool.and_eq_true, beq_iff_eq] at honce
    simp only [samplesOk, List.all_cons, Bool.and_eq_true] at hsamp
    rcases Option.isSome_iff_exists.mp hsamp.1 with ⟨d, hd⟩
    have hfire : e.now - st.last_update ≥ st.update_interval := by
      rw [hint]; exact htimes.1
    have hrun : runTicks st (e :: envs) =
        runTicks (update_data st e.now e.topo e.world e.sample) envs := rfl
    set st1 := update_data st e.now e.topo e.world e.sample with hst1
    have hc1 : st1.process_cache pid = some (ProcessInfo.init (some d)) := by
      rw [hst1, update_data_fire st e.now e.topo e.world e.sample hfire]
      have hfold := fold_count_one_new e.sample (tickPids e.world e.topo) honce.1
        (st.process_cache, fun _ => none) hfresh
      rw [hd] at hfold
      exact hfold
    have hint1 : st1.update_interval = 2 := by
      rw [hst1, update_data_fire st e.now e.topo e.world e.sample hfire]
      exact hint
    have hlast1 : st1.last_update = e.now := by
      rw [hst1, update_data_fire st e.now e.topo e.world e.sample hfire]
    have hcpu1 : (ProcessInfo.init (some d)).cpu_history = [d.cpu] := rfl
    have hmem1 : (ProcessInfo.init (some d)).mem_history = [d.mem] := rfl
    rcases runTicks_existing pid envs st1 hint1 (by rw [hlast1]; exact htimes.2)
        honce.2 hsamp.2 (ProcessInfo.init (some d)) hc1
        (by rw [hcpu1]; simp) (by rw [hmem1]; simp) with ⟨info', hfin, hfc, hfm⟩
    have hfc2 : info'.cpu_history = lastN 20 (cpuSamples pid (e :: envs)) := by
      rw [hfc, hcpu1, cpuSamples_cons pid e envs d hd, List.singleton_append]
    have hfm2 : info'.mem_history = lastN 20 (memSamples pid (e :: envs)) := by
      rw [hfm, hmem1, memSamples_cons pid e envs d hd, List.singleton_append]
    refine ⟨info', by rw [hrun]; exact hfin, hfc2, ?_, hfm2, ?_⟩
    · rw [hfc2, length_lastN, length_cpuSamples pid (e :: envs) hsamp0]
    · rw [hfm2, length_lastN, length_memSamples pid (e :: envs) hsamp0]
  · exact runTicks_preserves _ cap_update cap_init (e :: envs) st hcap

/-- Witness for C3: two firing ticks over a concrete topology. -/
theorem claim3_witness :
    ∃ info, (runTicks initState [tickE1, tickE2]).process_cache 2 = some info ∧
      info.cpu_history = lastN 20 (cpuSamples 2 [tickE1, tickE2]) ∧
      info.cpu_history.length = min ([tickE1, tickE2] : List TickEnv).length 20 ∧
      info.mem_history = lastN 20 (memSamples 2 [tickE1, tickE2]) ∧
      info.mem_history.length = min ([tickE1, tickE2] : List TickEnv).length 20 :=
  (claim3_history_bounds initState 2 tickE1 [tickE2] rfl
    (by norm_num [timesOk, tickE1, tickE2, initState]) (by decide)
    (by decide) rfl (fun _ _ h => Option.noConfusion h)).1

/-- C4: when sampling one process fails during a firing tick (the process
exited or access was denied), that id is skipped for the tick — an existing
record keeps its histories untouched yet stays in the table, a fresh record is
created empty — the refresh still completes and every other id with a
successful sample is processed and recorded as usual. -/
theorem claim4_failed_sample_skipped (st : TmuxState) (now : ℚ) (topo : Topology)
    (w : ProcWorld) (sample : Pid → Option SampleData) (pid : Pid)
    (hfire : now - st.last_update ≥ st.update_interval)
    (hfail : sample pid = none)
    (hcount : (tickPids w topo).count pid = 1) :
    (∀ info, st.process_cache pid = some info →
      (update_data st now topo w sample).process_cache pid = some info) ∧
    (st.process_cache pid = none →
      (update_data st now topo w sample).process_cache pid =
        some (ProcessInfo.init none)) ∧
    (∀ q (infoq : ProcessInfo) (d : SampleData), st.process_cache q = some infoq →
      sample q = some d → (tickPids w topo).count q = 1 →
      (update_data st now topo w sample).process_cache q =
        some (infoq.update (some d))) := by
  rw [update_data_fire st now topo w sample hfire]
  refine ⟨?_, ?_, ?_⟩
  · intro info hc
    have h := fold_count_one_existing sample (tickPids w topo) info hcount
      (st.process_cache, fun _ => none) hc
    rw [hfail] at h
    exact h
  · intro hc
    have h := fold_count_one_new sample (tickPids w topo) hcount
      (st.process_cache, fun _ => none) hc
    rw [hfail] at h
    exact h
  · intro q infoq d hcq hsq _hcountq
    have h := fold_count_one_existing sample (tickPids w topo) infoq _hcountq
      (st.process_cache, fun _ => none) hcq
    rw [hsq] at h
    exact h

/-- Witness for C4: pid 2's sample fails on a firing tick; the refresh still
yields a table with an (empty) record for it. -/
theorem claim4_witness :
    (update_data initState 10 topo1 w12 sampleSkip2).process_cache 2 =
      some (ProcessInfo.init none) :=
  (claim4_failed_sample_skipped initState 10 topo1 w12 sampleSkip2 2
    (by norm_num [initState]) rfl (by decide)).2.1 rfl

/-- C5: the sampler refreshes only when at least the 2-second minimum interval
has elapsed since its last execution; an earlier call is a no-op returning the
state — cached table, topology snapshot and last-update stamp — unchanged,
while a timely call refreshes and stamps `last_update`. -/
theorem claim5_cadence_gate (st : TmuxState) (now : ℚ) (topo : Topology) (w : ProcWorld)
    (sample : Pid → Option SampleData) (hint : st.update_interval = 2) :
    (now - st.last_update < 2 → update_data st now topo w sample = st) ∧
    (now - st.last_update ≥ 2 →
      (update_data st now topo w sample).last_update = now ∧
      (update_data st now topo w sample).sessions = topo) := by
  constructor
  · intro h
    apply update_data_skip
    rw [hint]
    exact not_le.mpr h
  · intro h
    rw [update_data_fire st now topo w sample (by rw [hint]; exact h)]
    exact ⟨rfl, rfl⟩

/-- Witness for C5: a call 1 second after start changes nothing. -/
theorem claim5_witness : update_data initState 1 topo1 w12 sampleA = initState :=
  (claim5_cadence_gate initState 1 topo1 w12 sampleA rfl).1 (by norm_num [initState])

/-- C2 as stated is false: the claim includes the pane's own process id in the
tracked set, but `get_process_tree` returns `children(recursive=True)` — the
strict descendants only. Concretely: pane pid 1 (with child 2) is listed in the
topology, the tick fires, pid 2 is recorded, yet the table holds no record
under pid 1. -/
theorem claim2_counterexample :
    topo1 = [("s", [("0:w", [("0", 1)])])] ∧
    (update_data initState 10 topo1 w12 sampleA).process_cache 1 = none ∧
    ((update_data initState 10 topo1 w12 sampleA).process_cache 2).isSome = true := by
  have hfire : (10 : ℚ) - initState.last_update ≥ initState.update_interval := by
    norm_num [initState]
  refine ⟨rfl, ?_, ?_⟩
  · rw [update_data_fire initState 10 topo1 w12 sampleA hfire]
    decide
  · rw [update_data_fire initState 10 topo1 w12 sampleA hfire]
    decide

/-- C2 amended: the set of process ids tracked for a pane is exactly the
pane's strict process-tree expansion — all transitive descendants of the pane
process, the pane's own process id NOT included (whenever the process table is
acyclic at the pane pid). -/
theorem claim2_pane_expansion (st : TmuxState) (now : ℚ) (sname wname pi : String)
    (w : ProcWorld) (p : Pid) (sample : Pid → Option SampleData)
    (hfire : now - st.last_update ≥ st.update_interval)
    (hacyc : w.ancestorOf w.procs.length p p = false) :
    (∀ q, ((update_data st now [(sname, [(wname, [(pi, p)])])] w sample).process_cache q).isSome
        = true ↔ q ∈ get_process_tree w p) ∧
    p ∉ get_process_tree w p := by
  constructor
  · intro q
    have htick : tickPids w [(sname, [(wname, [(pi, p)])])] = get_process_tree w p := by
      simp [tickPids]
    rw [update_data_fire st now [(sname, [(wname, [(pi, p)])])] w sample hfire,
      fold_snd_isSome sample _ q (st.process_cache, fun _ => none), htick]
    simp
  · intro hmem
    unfold get_process_tree at hmem
    split at hmem
    · unfold ProcWorld.childrenRecursive at hmem
      have h2 := (List.mem_filter.mp hmem).2
      rw [hacyc] at h2
      exact Bool.noConfusion h2
    · simp at hmem

/-- Witness for the amended C2 at the concrete one-pane world. -/
theorem claim2_witness : 1 ∉ get_process_tree w12 1 :=
  (claim2_pane_expansion initState 10 "s" "0:w" "0" w12 1 sampleA
    (by norm_num [initState]) (by decide)).2

/-- C7: on a history made only of zero samples, the sparkline is the lowest
glyph once per sample, left-justified with blanks to the 10-column display
width, and the divisor is the positive epsilon 1/10 (no division by zero). -/
theorem claim7_all_zero_sparkline (data : List ℚ) (hne : data ≠ [])
    (hzero : ∀ v ∈ data, v = 0) :
    ProcessInfo.getGraph data = ljustChars (List.replicate data.length '▁') 10 ∧
    (∀ x xs, data = x :: xs → max (maxOf x xs) (1 / 10) = (1 / 10 : ℚ)) := by
  cases data with
  | nil => exact absurd rfl hne
  | cons x xs =>
    have hx : x = 0 := hzero x (List.mem_cons_self x xs)
    have hmax : maxOf x xs = 0 := by
      rw [hx]
      have : ∀ v ∈ xs, v = (0 : ℚ) := fun v hv => hzero v (List.mem_cons_of_mem _ hv)
      clear hx hzero hne
      induction xs with
      | nil => rfl
      | cons y ys ih =>
        have hy : y = 0 := this y (List.mem_cons_self y ys)
        have h0 : maxOf 0 (y :: ys) = maxOf (max 0 y) ys := rfl
        rw [h0, hy, max_self]
        exact ih (fun v hv => this v (List.mem_cons_of_mem _ hv))
    have hmv : max (maxOf x xs) (1 / 10 : ℚ) = 1 / 10 := by rw [hmax]; norm_num
    refine ⟨?_, fun a as h => by cases h; exact hmv⟩
    show ljustChars ((x :: xs).map _) 10 = ljustChars (List.replicate (x :: xs).length '▁') 10
    congr 1
    rw [List.eq_replicate_iff]
    refine ⟨by simp, ?_⟩
    intro b hb
    rcases List.mem_map.mp hb with ⟨v, hv, rfl⟩
    have hv0 : v = 0 := hzero v hv
    subst hv0
    rw [hmv]
    have hq : ((0 : ℚ) / (1 / 10) * ((graph_chars.length : Int) - 1)) = 0 := by
      norm_num
    rw [hq]
    have hpy : pyInt 0 = 0 := rfl
    rw [hpy]
    decide

/-- Witness for C7 on the history [0, 0, 0]. -/
theorem claim7_witness :
    ProcessInfo.getGraph [0, 0, 0] = ljustChars (List.replicate 3 '▁') 10 :=
  (claim7_all_zero_sparkline [0, 0, 0] (by simp) (by norm_num)).1

lemma scrollDown_iter (N : Nat) : ∀ p : Int, scrollDownKey^[N] p = p + N := by
  induction N with
  | zero => intro p; simp
  | succ n ih =>
    intro p
    rw [Function.iterate_succ_apply, ih (scrollDownKey p)]
    show p + 1 + n = p + (n + 1 : Nat)
    push_cast
    ring

lemma scrollUp_iter (M : Nat) : ∀ k : Int, (M : Int) ≤ k → scrollUpKey^[M] k = k - M := by
  induction M with
  | zero => intro k _; simp
  | succ n ih =>
    intro k hk
    rw [Function.iterate_succ_apply]
    have hpos : 0 < k := by push_cast at hk; omega
    have hstep : scrollUpKey k = k - 1 := by rw [scrollUpKey, if_pos hpos]
    rw [hstep, ih (k - 1) (by push_cast at hk ⊢; omega)]
    push_cast
    ring

/-- C8: the scroll offset never goes negative — from 0 a scroll-up leaves it
at 0, both keys preserve non-negativity — and N scroll-downs followed by
M ≤ N scroll-ups from 0 land exactly on N − M. -/
theorem claim8_scroll_offset :
    scrollUpKey 0 = 0 ∧
    (∀ p : Int, 0 ≤ p → 0 ≤ scrollUpKey p ∧ 0 ≤ scrollDownKey p) ∧
    (∀ N M : Nat, M ≤ N →
      scrollUpKey^[M] (scrollDownKey^[N] 0) = (N : Int) - (M : Int)) := by
  refine ⟨by decide, ?_, ?_⟩
  · intro p hp
    constructor
    · rw [scrollUpKey]; split <;> omega
    · rw [scrollDownKey]; omega
  · intro N M hMN
    rw [scrollDown_iter N 0, scrollUp_iter M (0 + (N : Int)) (by omega)]
    ring

/-- Witness for C8: three downs then two ups give offset 1. -/
theorem claim8_witness : scrollUpKey^[2] (scrollDownKey^[3] 0) = 1 := by
  have h := claim8_scroll_offset.2.2 3 2 (by norm_num)
  simpa using h

/-- C9: severity bands — green (pair 3) for 0 ≤ v < 50, yellow (pair 4) for
50 ≤ v < 80, red (pair 5) for v ≥ 80, the boundaries 50 and 80 landing in the
upper band, applied independently to the CPU and memory cells. -/
theorem claim9_color_bands (v : ℚ) :
    (0 ≤ v → v < 50 → cpu_color v = 3 ∧ mem_color v = 3) ∧
    (50 ≤ v → v < 80 → cpu_color v = 4 ∧ mem_color v = 4) ∧
    (80 ≤ v → cpu_color v = 5 ∧ mem_color v = 5) := by
  refine ⟨fun _ h2 => ?_, fun h1 h2 => ?_, fun h1 => ?_⟩
  · constructor <;> simp [cpu_color, mem_color, h2]
  · have hn : ¬ v < 50 := not_lt.mpr h1
    constructor <;> simp [cpu_color, mem_color, hn, h2]
  · have h50 : ¬ v < 50 := not_lt.mpr (by linarith)
    have h80 : ¬ v < 80 := not_lt.mpr h1
    constructor <;> simp [cpu_color, mem_color, h50, h80]

/-- Witness for C9 at the two boundary values. -/
theorem claim9_witness : cpu_color 50 = 4 ∧ mem_color 80 = 5 :=
  ⟨((claim9_color_bands 50).2.1 (by norm_num) (by norm_num)).1,
   ((claim9_color_bands 80).2.2 (by norm_num)).2⟩

/-- C10 as stated is false on one point: record construction runs `update`
once, and when that very first sample fails (process already gone) it appends
to NEITHER history — zero samples, not "exactly one". -/
theorem claim10_counterexample :
    (ProcessInfo.init none).cpu_history = [] ∧
    (ProcessInfo.init none).mem_history = [] ∧
    ¬ (ProcessInfo.init none).cpu_history.length = 1 :=
  ⟨rfl, rfl, by decide⟩

/-- C10 amended: construction appends one sample to each history when its
initial sample succeeds and none to either when it fails; a successful update
appends exactly one to each (evicting at capacity), a failed update to
neither; hence CPU and memory histories always have equal length — in every
record of every reachable table. -/
theorem claim10_lockstep :
    (∀ d : SampleData, (ProcessInfo.init (some d)).cpu_history = [d.cpu] ∧
      (ProcessInfo.init (some d)).mem_history = [d.mem]) ∧
    ((ProcessInfo.init none).cpu_history = [] ∧
      (ProcessInfo.init none).mem_history = []) ∧
    (∀ info : ProcessInfo, info.update none = info) ∧
    (∀ (info : ProcessInfo) (d : SampleData),
      (info.update (some d)).cpu_history = lastN 20 (info.cpu_history ++ [d.cpu]) ∧
      (info.update (some d)).mem_history = lastN 20 (info.mem_history ++ [d.mem])) ∧
    (∀ (info : ProcessInfo) (s : Option SampleData),
      info.cpu_history.length = info.mem_history.length →
      (info.update s).cpu_history.length = (info.update s).mem_history.length) ∧
    (∀ (st : TmuxState) (envs : List TickEnv),
      (∀ q i, st.process_cache q = some i → i.cpu_history.length = i.mem_history.length) →
      ∀ q i, (runTicks st envs).process_cache q = some i →
        i.cpu_history.length = i.mem_history.length) := by
  have hupd : ∀ (i : ProcessInfo) (s : Option SampleData),
      i.cpu_history.length = i.mem_history.length →
      (i.update s).cpu_history.length = (i.update s).mem_history.length := by
    intro i s h
    cases s with
    | none => exact h
    | some d => simp only [ProcessInfo.update, length_dequeAppend, h]
  refine ⟨fun d => ⟨rfl, rfl⟩, ⟨rfl, rfl⟩, fun info => rfl, fun info d => ⟨rfl, rfl⟩,
    hupd, ?_⟩
  intro st envs h
  exact runTicks_preserves (fun i => i.cpu_history.length = i.mem_history.length)
    hupd
    (fun s => by cases s with
      | none => rfl
      | some d => rfl)
    envs st h

/-- Witness for the amended C10: a concrete record, failed update keeps the
histories in lockstep. -/
theorem claim10_witness :
    ((ProcessInfo.init (some dataA)).update none).cpu_history.length =
      ((ProcessInfo.init (some dataA)).update none).mem_history.length :=
  claim10_lockstep.2.2.2.2.1 (ProcessInfo.init (some dataA)) none rfl

/-- C6: the claim demands that every interpolated value — including the pane
working directory — stays inert data under shell parsing. The code does call
`shlex.quote` on the pane path, but line 258 then embeds the quoted path
inside LITERAL single quotes of its own (`'cd {...}'`), cancelling the
protection: for the path `$(rm -rf /)` the `$` of the generated `send-keys`
line sits OUTSIDE single quotes and the command substitution would run when
the backup script is executed. The same payload passed through the command
path of line 263, quoted once and not re-wrapped, stays fully inert — as does
the bare `shlex.quote` output itself. -/
theorem claim6_cd_line_unquoted_substitution :
    hasActiveDollar (cdSendKeysLine "s".data "0".data "0".data "$(rm -rf /)".data) = true ∧
    hasActiveDollar (shlexQuote "$(rm -rf /)".data) = false ∧
    hasActiveDollar (cmdSendKeysLine "s".data "0".data "0".data ["$(rm -rf /)".data]) =
      false := by
  refine ⟨?_, ?_, ?_⟩ <;> decide

end Tmuxtop
